import Mathlib

/-!
Verification of the core-state-at-branch-event analyzer
(`scripts/analysis_data_export.py`): a shallow embedding of the per-core
window tracker (`CoreStateAnalyzer`), the run aggregator
(`CoreStateAtBranchEventAnalyzer`) and its summary statistics, together with
theorems settling the specification's claims about them.

Modelling conventions:
* Simulator timestamps (`sim.stats.time()`, tick `time`/`time_delta`) are
  Python integers, embedded as `Int`.
* Discrete core states are the ordinals 0..6, embedded as `Nat`
  (IDLE = 5 is the value the aggregation singles out).
* External collaborators (`sim.dvfs.get_core_state`, `sim.stats.time`,
  instruction counts) become explicit arguments of the operations that the
  Python code reads them in.
* Python dicts keyed by consecutively assigned ids preserve insertion order;
  they are embedded as lists in insertion order.
* CSV output: a row is embedded as a structure whose fields carry the values
  that are formatted into the row; the float arithmetic of the summary is
  embedded as exact rational arithmetic over `ℚ`.
-/

namespace AnalysisDataExport

/-- Modelled from the spec: `sim.util.Time.US`, the external simulator's
time-unit constant — the number of femtoseconds in one microsecond (the event
source delivers timestamps in femtoseconds; `sim.util` is an external
collaborator, not part of the repository). -/
def Time.US : Int := 1000000000

/-- An observation record: the dict built by
`CoreStateAnalyzer.record_branch_event`, with the fields in the source's
order.  `states` is the append-only list of `(elapsed_time, state)` pairs. -/
structure Record where
  event_id : Nat
  core_id : Nat
  ip : Nat
  branch_taken : Bool
  start_time : Int
  instruction_count : Nat
  states : List (Int × Nat)
deriving DecidableEq

/-- The per-core tracker `CoreStateAnalyzer`: its `__init__` fields.
`active_records` is the insertion-ordered embedding of the
`event_id -> record` dict (each record carries its own `event_id` key). -/
structure CoreStateAnalyzer where
  core_id : Nat
  results_folder : String
  observation_window : Int
  sampling_period : Int
  active_records : List Record
  completed_records : List Record
  next_event_id : Nat
deriving DecidableEq

/-- `CoreStateAnalyzer.__init__`: empty active and completed sets, next
event id 1. -/
def freshAnalyzer (core_id : Nat) (results_folder : String)
    (observation_window sampling_period : Int) : CoreStateAnalyzer :=
  { core_id := core_id
    results_folder := results_folder
    observation_window := observation_window
    sampling_period := sampling_period
    active_records := []
    completed_records := []
    next_event_id := 1 }

/-- `CoreStateAnalyzer.record_branch_event`: allocate the next event id,
build the record (only `ip` and `actual` are retained; `now` and `icount`
are the values the code reads from `sim.stats`), insert it into the active
set. -/
def record_branch_event (a : CoreStateAnalyzer) (ip : Nat)
    (predicted actual indirect : Bool) (now : Int) (icount : Nat) :
    CoreStateAnalyzer :=
  { a with
    next_event_id := a.next_event_id + 1
    active_records := a.active_records ++
      [{ event_id := a.next_event_id
         core_id := a.core_id
         ip := ip
         branch_taken := actual
         start_time := now
         instruction_count := icount
         states := [] }] }

/-- The sample appended to a record by one nonzero-delta tick:
`record['states'].append((elapsed_time, current_state))` with
`elapsed_time = time - record['start_time']`. -/
def appendSample (time : Int) (st : Nat) (r : Record) : Record :=
  { r with states := r.states ++ [(time - r.start_time, st)] }

/-- The body of the `for event_id in list(self.active_records.keys())` loop of
`collect_state_sample`, folded over the active records: append the sample,
then either keep the record active or move it (sample included) to the
completed accumulator, depending on
`elapsed_time > self.observation_window * sim.util.Time.US`. -/
def sampleStep (window time : Int) (st : Nat)
    (acc : List Record × List Record) (r : Record) :
    List Record × List Record :=
  if window * Time.US < time - r.start_time then
    (acc.1, acc.2 ++ [appendSample time st r])
  else
    (acc.1 ++ [appendSample time st r], acc.2)

/-- `CoreStateAnalyzer.collect_state_sample`: no-op on `time_delta == 0`;
otherwise process every active record with `sampleStep` (the current state
`st` is the value the code reads from `sim.dvfs.get_core_state`). -/
def collect_state_sample (a : CoreStateAnalyzer) (time time_delta : Int)
    (st : Nat) : CoreStateAnalyzer :=
  if time_delta = 0 then a
  else
    let p := a.active_records.foldl
      (sampleStep a.observation_window time st) ([], [])
    { a with
      active_records := p.1
      completed_records := a.completed_records ++ p.2 }

/-- The run aggregator `CoreStateAtBranchEventAnalyzer` after `setup`:
configuration, the global branch counter, and one tracker per core (the
`core_id -> CoreStateAnalyzer` dict keyed `0 .. ncores-1`, embedded as the
list whose index is the core id). -/
structure CoreStateAtBranchEventAnalyzer where
  results_folder : String
  state_patterns_file : String
  analysis_summary_file : String
  observation_window : Int
  sampling_period : Int
  total_branches : Nat
  core_analyzers : List CoreStateAnalyzer
deriving DecidableEq

/-- Modelled from the spec: Python's `int()` applied to the digits of a
decimal string with an optional sign — the parse used by `setup` on the
colon-separated argument fields (whitespace and underscore tolerance of the
builtin are not exercised by the configuration strings).  `none` embeds the
`ValueError` the builtin raises on a malformed field. -/
def digitsVal (cs : List Char) : Option Nat :=
  if cs.isEmpty then none
  else if cs.all Char.isDigit then
    some (cs.foldl (fun n c => n * 10 + (c.toNat - 48)) 0)
  else none

/-- Sign handling of Python's `int()` over a string (see `digitsVal`). -/
def pyInt (s : String) : Option Int :=
  match s.toList with
  | '-' :: rest => (digitsVal rest).map (fun n => -(n : Int))
  | '+' :: rest => (digitsVal rest).map (fun n => (n : Int))
  | cs => (digitsVal cs).map (fun n => (n : Int))

/-- Python's `str.split(sep)` on a single-character separator, over the
character list. -/
def splitChars (sep : Char) : List Char → List (List Char)
  | [] => [[]]
  | c :: cs =>
    if c = sep then [] :: splitChars sep cs
    else
      match splitChars sep cs with
      | [] => [[c]]
      | g :: gs => (c :: g) :: gs

/-- Python's `(args or '').split(':')` as used by `setup`. -/
def pySplit (sep : Char) (s : String) : List String :=
  (splitChars sep s.toList).map (fun cs => String.mk cs)

/-- One positional field of the argument string:
`int(args.get(i, None) or default)` — a missing or empty field falls back to
the default, any other field goes through `int()`. -/
def parseArgField (fields : List String) (i : Nat) (dflt : Int) : Option Int :=
  match fields.get? i with
  | none => some dflt
  | some s => if s = "" then some dflt else pyInt s

/-- `CoreStateAtBranchEventAnalyzer.setup`: parse
`"<observation_window=100>:<sampling_period=1>"`, build the output paths,
and create one `CoreStateAnalyzer` per core.  `none` embeds an uncaught
parse exception; note the source applies no positivity validation to the
parsed values. -/
def setup (args : String) (ncores : Nat) (output_dir : String) :
    Option CoreStateAtBranchEventAnalyzer :=
  let fields := pySplit ':' args
  match parseArgField fields 0 100, parseArgField fields 1 1 with
  | some w, some p =>
    some
      { results_folder := output_dir
        state_patterns_file := output_dir ++ "/core_state_patterns.csv"
        analysis_summary_file := output_dir ++ "/state_pattern_summary.csv"
        observation_window := w
        sampling_period := p
        total_branches := 0
        core_analyzers :=
          (List.range ncores).map (fun cid => freshAnalyzer cid output_dir w p) }
  | _, _ => none

/-- `hook_periodic`: forward the tick to every tracker; `stateOf` is the
per-core state read `sim.dvfs.get_core_state(core_id)` performed inside each
tracker's `collect_state_sample`. -/
def hook_periodic (g : CoreStateAtBranchEventAnalyzer) (time time_delta : Int)
    (stateOf : Nat → Nat) : CoreStateAtBranchEventAnalyzer :=
  { g with
    core_analyzers := g.core_analyzers.map
      (fun a => collect_state_sample a time time_delta (stateOf a.core_id)) }

/-- `hook_branch_predictor`: count the branch; if `core_id` names a tracker
(`core_id in self.core_analyzers`), forward to its `record_branch_event`,
else do nothing further. -/
def hook_branch_predictor (g : CoreStateAtBranchEventAnalyzer)
    (core_id ip : Nat) (predicted actual indirect : Bool) (now : Int)
    (icount : Nat) : CoreStateAtBranchEventAnalyzer :=
  let g1 := { g with total_branches := g.total_branches + 1 }
  match g1.core_analyzers[core_id]? with
  | some a =>
    { g1 with
      core_analyzers := g1.core_analyzers.set core_id
        (record_branch_event a ip predicted actual indirect now icount) }
  | none => g1

/-- `hook_sim_end`'s record collection: for every tracker (in core order),
its completed records followed by its still-active records; nothing is
removed from the trackers. -/
def allRecords (g : CoreStateAtBranchEventAnalyzer) : List Record :=
  g.core_analyzers.foldl
    (fun acc a => (acc ++ a.completed_records) ++ a.active_records) []

/-- One row of `core_state_patterns.csv` (dataset 1): the values formatted
into it, with the sample sequence flattened to its state ordinals
(`','.join(str(s) for _, s in record['states'])`). -/
structure RawRow where
  event_id : Nat
  instruction_count : Nat
  start_time : Int
  core_id : Nat
  ip : Nat
  branch_taken : Bool
  states : List Nat
deriving DecidableEq

/-- The row written for one record by `hook_sim_end`. -/
def rawRow (r : Record) : RawRow :=
  { event_id := r.event_id
    instruction_count := r.instruction_count
    start_time := r.start_time
    core_id := r.core_id
    ip := r.ip
    branch_taken := r.branch_taken
    states := r.states.map Prod.snd }

/-- One `pattern_stats` entry of `generate_analysis_summary`. -/
structure PatternStat where
  count : Nat
  idle_positions : List Nat
  branch_taken_count : Nat
deriving DecidableEq

/-- `idle_positions = [i for i, state in enumerate(states) if state == 5]`
for one record, where `states = [s for _, s in record['states']]`. -/
def idlePositionsOf (r : Record) : List Nat :=
  (((r.states.map Prod.snd).enum).filter (fun p => p.2 == 5)).map Prod.fst

/-- The `pattern_stats[ip]` update of `generate_analysis_summary`: create the
entry on first sight of the ip, otherwise bump `count`, extend
`idle_positions` and add to `branch_taken_count`.  The association list is in
dict insertion order. -/
def updateStats (ps : List (Nat × PatternStat)) (ip : Nat) (ipos : List Nat)
    (bt : Bool) : List (Nat × PatternStat) :=
  match ps with
  | [] => [(ip, ⟨1, ipos, if bt then 1 else 0⟩)]
  | (k, st) :: rest =>
    if k = ip then
      (k, ⟨st.count + 1, st.idle_positions ++ ipos,
           st.branch_taken_count + (if bt then 1 else 0)⟩) :: rest
    else (k, st) :: updateStats rest ip ipos bt

/-- The per-record step of the `pattern_stats` scan: records whose
`idle_positions` list is empty contribute nothing. -/
def statsStep (ps : List (Nat × PatternStat)) (r : Record) :
    List (Nat × PatternStat) :=
  let ipos := idlePositionsOf r
  if ipos.isEmpty then ps else updateStats ps r.ip ipos r.branch_taken

/-- The full `pattern_stats` map of `generate_analysis_summary`. -/
def patternStats (rs : List Record) : List (Nat × PatternStat) :=
  rs.foldl statsStep []

/-- One row of `state_pattern_summary.csv` (dataset 2): the values formatted
into it.  The ip is kept in its numeric identity (the CSV key is `hex(ip)`);
the three float statistics are embedded as exact rationals. -/
structure SummaryRow where
  ip : Nat
  count : Nat
  avg_idle_position : ℚ
  idle_time_percent : ℚ
  branch_taken_ratio : ℚ
deriving DecidableEq

/-- The summary row computed for one `pattern_stats` entry:
`avg_position = sum(idle_positions) / float(len(idle_positions))`,
`idle_percentage = (float(len(idle_positions)) / (count *
total_samples_per_record)) * 100` with `total_samples_per_record =
self.observation_window` (the configured window length), and
`branch_taken_ratio = float(branch_taken_count) / count`. -/
def summaryRow (w : Int) (p : Nat × PatternStat) : SummaryRow :=
  { ip := p.1
    count := p.2.count
    avg_idle_position :=
      ((p.2.idle_positions.map (fun i : Nat => (i : ℚ))).sum) /
        (p.2.idle_positions.length : ℚ)
    idle_time_percent :=
      ((p.2.idle_positions.length : ℚ) / ((p.2.count : ℚ) * (w : ℚ))) * 100
    branch_taken_ratio := (p.2.branch_taken_count : ℚ) / (p.2.count : ℚ) }

/-- `generate_analysis_summary`: the summary rows in `pattern_stats` order. -/
def generate_analysis_summary (w : Int) (all_records : List Record) :
    List SummaryRow :=
  (patternStats all_records).map (summaryRow w)

/-- `hook_sim_end`: read the combined records out of the trackers (without
mutating them — the returned state is the input state) and produce the two
datasets. -/
def hook_sim_end (g : CoreStateAtBranchEventAnalyzer) :
    CoreStateAtBranchEventAnalyzer × (List RawRow × List SummaryRow) :=
  (g, ((allRecords g).map rawRow,
       generate_analysis_summary g.observation_window (allRecords g)))

/-- An event delivered to a single core's tracker: a branch event (with the
values read from the external providers at delivery time) or a periodic
tick (with the state the tracker reads during the tick). -/
inductive CoreEvent where
  | branch (ip : Nat) (predicted actual indirect : Bool) (now : Int)
      (icount : Nat)
  | tick (time time_delta : Int) (state : Nat)
deriving DecidableEq

/-- Whether an event is a branch event. -/
def CoreEvent.isBranch : CoreEvent → Bool
  | .branch .. => true
  | .tick .. => false

/-- Deliver one event to a tracker. -/
def applyEvent (a : CoreStateAnalyzer) : CoreEvent → CoreStateAnalyzer
  | .branch ip p act ind now ic => record_branch_event a ip p act ind now ic
  | .tick t d st => collect_state_sample a t d st

/-- Deliver a sequence of events to a tracker, in order. -/
def runEvents (a : CoreStateAnalyzer) (es : List CoreEvent) :
    CoreStateAnalyzer :=
  es.foldl applyEvent a

/-- The number of branch events in a delivery sequence. -/
def branchCount (es : List CoreEvent) : Nat :=
  (es.filter CoreEvent.isBranch).length

/-- The event ids `record_branch_event` assigns to the branch events of a
delivery sequence, in delivery order (each branch event receives the
tracker's `next_event_id` at the moment it is delivered). -/
def assignedIds (a : CoreStateAnalyzer) : List CoreEvent → List Nat
  | [] => []
  | e :: es =>
    if e.isBranch then a.next_event_id :: assignedIds (applyEvent a e) es
    else assignedIds (applyEvent a e) es

/-- The event ids present in a tracker: active records first, then completed
records. -/
def analyzerIds (a : CoreStateAnalyzer) : List Nat :=
  a.active_records.map (fun r => r.event_id) ++
    a.completed_records.map (fun r => r.event_id)

/-- The total number of records (active or completed) held across all
trackers of the aggregator. -/
def totalRecordCount (g : CoreStateAtBranchEventAnalyzer) : Nat :=
  (g.core_analyzers.map
    (fun a => a.active_records.length + a.completed_records.length)).sum

/-- Whether a record contributes to the `pattern_stats` entry of `ip`: its
branch ip matches and it has at least one IDLE (= 5) sample. -/
def recordMatches (ip : Nat) (r : Record) : Bool :=
  r.ip == ip && !(idlePositionsOf r).isEmpty

/-- The records of a run that contribute to the entry of `ip`. -/
def matchingRecords (rs : List Record) (ip : Nat) : List Record :=
  rs.filter (recordMatches ip)

/-- Dict lookup `pattern_stats.get(ip)` on the association-list embedding. -/
def lookupStat (ps : List (Nat × PatternStat)) (ip : Nat) :
    Option PatternStat :=
  (ps.find? (fun p => p.1 == ip)).map Prod.snd

/-- The keys of the `pattern_stats` association list, in insertion order. -/
def keysOf (ps : List (Nat × PatternStat)) : List Nat := ps.map Prod.fst

/-- A record with one IDLE sample (position 0) and one RUNNING sample, for
concrete instantiations. -/
def statRecord : Record :=
  { event_id := 1, core_id := 0, ip := 4660, branch_taken := true,
    start_time := 0, instruction_count := 0, states := [(1, 5), (2, 0)] }

/-- The `pattern_stats` entry produced by `statRecord`. -/
def c10p : Nat × PatternStat := (4660, ⟨1, [0], 1⟩)

/-- The C5 scenario: `setup` with window 100 µs, period 1 µs, one core. -/
def c5start : CoreStateAtBranchEventAnalyzer :=
  (setup "100:1" 1 "results").getD
    { results_folder := "", state_patterns_file := "",
      analysis_summary_file := "", observation_window := 0,
      sampling_period := 0, total_branches := 0, core_analyzers := [] }

/-- The C5 scenario run: one branch event at t = 0 on core 0 (ip 4660,
`branch_taken = bt`), then 150 periodic ticks at the configured 1 µs
cadence (tick k at time k µs, delta 1 µs), every tick reporting IDLE. -/
def c5run (bt : Bool) : CoreStateAtBranchEventAnalyzer :=
  (List.range 150).foldl
    (fun g k => hook_periodic g (((k : Int) + 1) * Time.US) Time.US
      (fun _ => 5))
    (hook_branch_predictor c5start 0 4660 true bt false 0 0)

/-- A one-record tracker whose window is 1 microsecond, for concrete
instantiations. -/
def exRecord : Record :=
  { event_id := 1, core_id := 0, ip := 7, branch_taken := true,
    start_time := 0, instruction_count := 3, states := [] }

/-- A concrete tracker holding `exRecord` as its only active record. -/
def exAnalyzer : CoreStateAnalyzer :=
  { core_id := 0, results_folder := "r", observation_window := 1,
    sampling_period := 1, active_records := [exRecord],
    completed_records := [], next_event_id := 2 }

/-- The first event sequence of the C4 witness: one branch event, then a
tick that closes its window. -/
def c4es : List CoreEvent :=
  [CoreEvent.branch 7 true true false 0 3,
   CoreEvent.tick (2 * Time.US) (2 * Time.US) 5]

/-- The continuation of the C4 witness: a second branch event and a tick
that leaves its window open. -/
def c4es2 : List CoreEvent :=
  [CoreEvent.branch 9 true true false (3 * Time.US) 0,
   CoreEvent.tick (4 * Time.US) Time.US 5]

/-- The record completed by `c4es` on a window of 1 microsecond. -/
def c4r : Record :=
  { event_id := 1, core_id := 0, ip := 7, branch_taken := true,
    start_time := 0, instruction_count := 3, states := [(2 * Time.US, 5)] }

/-- The record still active after `c4es ++ c4es2`. -/
def c4s : Record :=
  { event_id := 2, core_id := 0, ip := 9, branch_taken := true,
    start_time := 3 * Time.US, instruction_count := 0,
    states := [(Time.US, 5)] }

/-- A one-core aggregator for concrete instantiations. -/
def exAggregator : CoreStateAtBranchEventAnalyzer :=
  { results_folder := "r", state_patterns_file := "p",
    analysis_summary_file := "s", observation_window := 100,
    sampling_period := 1, total_branches := 0,
    core_analyzers := [freshAnalyzer 0 "r" 100 1] }

/-- A tracker with observation window 0 holding one active record. -/
def c8Analyzer : CoreStateAnalyzer :=
  { core_id := 0, results_folder := "r", observation_window := 0,
    sampling_period := 1, active_records := [exRecord],
    completed_records := [], next_event_id := 2 }

theorem sampleStep_foldl (w t : Int) (st : Nat) (l : List Record) :
    ∀ acc : List Record × List Record,
    l.foldl (sampleStep w t st) acc =
      (acc.1 ++ (l.map (appendSample t st)).filter
          (fun r => !decide (w * Time.US < t - r.start_time)),
       acc.2 ++ (l.map (appendSample t st)).filter
          (fun r => decide (w * Time.US < t - r.start_time))) := by
  induction l with
  | nil => intro acc; simp
  | cons r l ih =>
    intro acc
    by_cases hc : w * Time.US < t - r.start_time
    · simp [sampleStep, hc, ih, appendSample, List.filter_cons,
        List.append_assoc]
    · simp [sampleStep, hc, ih, appendSample, List.filter_cons,
        List.append_assoc]

theorem collect_active_eq (a : CoreStateAnalyzer) (t d : Int) (st : Nat)
    (h : d ≠ 0) :
    (collect_state_sample a t d st).active_records =
      (a.active_records.map (appendSample t st)).filter
        (fun r => !decide (a.observation_window * Time.US <
            t - r.start_time)) := by
  simp [collect_state_sample, h, sampleStep_foldl]

theorem collect_completed_eq (a : CoreStateAnalyzer) (t d : Int) (st : Nat)
    (h : d ≠ 0) :
    (collect_state_sample a t d st).completed_records =
      a.completed_records ++
        (a.active_records.map (appendSample t st)).filter
          (fun r => decide (a.observation_window * Time.US <
              t - r.start_time)) := by
  simp [collect_state_sample, h, sampleStep_foldl]

theorem collect_zero (a : CoreStateAnalyzer) (t : Int) (st : Nat) :
    collect_state_sample a t 0 st = a := by
  simp [collect_state_sample]

/-- C1: on every tick with `time_delta ≠ 0`, each record of the active set
gets exactly one sample `(elapsed, state)` appended, with
`elapsed = time - start_time`; the records whose elapsed time exceeds the
observation window (converted to the tick time unit by `Time.US`) are
moved, sample included, to the end of the completed set, and the rest stay
active in order. -/
theorem C1_tick_sampling (a : CoreStateAnalyzer) (time time_delta : Int)
    (st : Nat) (h : time_delta ≠ 0) :
    (collect_state_sample a time time_delta st).active_records =
      (a.active_records.map (appendSample time st)).filter
        (fun r => !decide (a.observation_window * Time.US <
            time - r.start_time))
    ∧ (collect_state_sample a time time_delta st).completed_records =
      a.completed_records ++
        (a.active_records.map (appendSample time st)).filter
          (fun r => decide (a.observation_window * Time.US <
              time - r.start_time)) :=
  ⟨collect_active_eq a time time_delta st h,
   collect_completed_eq a time time_delta st h⟩

theorem C1_tick_sampling_witness :
    (collect_state_sample exAnalyzer (2 * Time.US) Time.US 5).active_records =
      (exAnalyzer.active_records.map (appendSample (2 * Time.US) 5)).filter
        (fun r => !decide (exAnalyzer.observation_window * Time.US <
            2 * Time.US - r.start_time))
    ∧ (collect_state_sample exAnalyzer
          (2 * Time.US) Time.US 5).completed_records =
      exAnalyzer.completed_records ++
        (exAnalyzer.active_records.map (appendSample (2 * Time.US) 5)).filter
          (fun r => decide (exAnalyzer.observation_window * Time.US <
              2 * Time.US - r.start_time)) :=
  C1_tick_sampling exAnalyzer (2 * Time.US) Time.US 5 (by decide)

/-- C6: a tick with `time_delta = 0` is a no-op: the tracker is unchanged,
so in particular every active record's sample list is unchanged and no
record moves to the completed set. -/
theorem C6_zero_delta_noop (a : CoreStateAnalyzer) (time : Int) (st : Nat) :
    collect_state_sample a time 0 st = a
    ∧ (collect_state_sample a time 0 st).active_records.map Record.states =
        a.active_records.map Record.states
    ∧ (collect_state_sample a time 0 st).completed_records =
        a.completed_records := by
  have h : collect_state_sample a time 0 st = a := collect_zero a time st
  exact ⟨h, by rw [h], by rw [h]⟩

theorem collect_next_eq (a : CoreStateAnalyzer) (t d : Int) (st : Nat) :
    (collect_state_sample a t d st).next_event_id = a.next_event_id := by
  unfold collect_state_sample
  split <;> rfl

theorem assignedIds_eq (es : List CoreEvent) :
    ∀ a : CoreStateAnalyzer,
    assignedIds a es = List.range' a.next_event_id (branchCount es) := by
  induction es with
  | nil => intro a; simp [assignedIds, branchCount]
  | cons e es ih =>
    intro a
    cases e with
    | branch ip p act ind now ic =>
      simp [assignedIds, CoreEvent.isBranch, branchCount, List.filter_cons,
        applyEvent, ih, record_branch_event, List.range'_succ]
    | tick t d st =>
      simp [assignedIds, CoreEvent.isBranch, branchCount, List.filter_cons,
        applyEvent, ih, collect_next_eq]

/-- C3: over any event sequence delivered to a fresh tracker (branch events
interleaved with arbitrary ticks, including ticks that complete records),
the event ids assigned to the `N` branch events are exactly `1, 2, ..., N`
in delivery order — strictly increasing, no gaps, no repeats and no reuse. -/
theorem C3_event_id_assignment (core_id : Nat) (rf : String) (w sp : Int)
    (es : List CoreEvent) :
    assignedIds (freshAnalyzer core_id rf w sp) es =
      List.range' 1 (branchCount es) := by
  simpa using assignedIds_eq es (freshAnalyzer core_id rf w sp)

theorem runEvents_append (a : CoreStateAnalyzer) (es es2 : List CoreEvent) :
    runEvents a (es ++ es2) = runEvents (runEvents a es) es2 := by
  simp [runEvents, List.foldl_append]

theorem applyEvent_next (a : CoreStateAnalyzer) (e : CoreEvent) :
    (applyEvent a e).next_event_id =
      a.next_event_id + (if e.isBranch then 1 else 0) := by
  cases e <;>
    simp [applyEvent, CoreEvent.isBranch, record_branch_event, collect_next_eq]

theorem runEvents_next (es : List CoreEvent) :
    ∀ a : CoreStateAnalyzer,
    (runEvents a es).next_event_id = a.next_event_id + branchCount es := by
  induction es with
  | nil => intro a; simp [runEvents, branchCount]
  | cons e es ih =>
    intro a
    have h := ih (applyEvent a e)
    cases e <;>
      simp [runEvents, branchCount, List.filter_cons, CoreEvent.isBranch,
        applyEvent, record_branch_event, collect_next_eq] at h ⊢ <;>
      omega

theorem applyEvent_completed (a : CoreStateAnalyzer) (e : CoreEvent) :
    ∃ l, (applyEvent a e).completed_records = a.completed_records ++ l := by
  cases e with
  | branch ip p act ind now ic =>
    exact ⟨[], by simp [applyEvent, record_branch_event]⟩
  | tick t d st =>
    by_cases h : d = 0
    · exact ⟨[], by simp [applyEvent, h, collect_zero]⟩
    · exact ⟨_, collect_completed_eq a t d st h⟩

theorem runEvents_completed (es : List CoreEvent) :
    ∀ a : CoreStateAnalyzer,
    ∃ l, (runEvents a es).completed_records = a.completed_records ++ l := by
  induction es with
  | nil => exact fun a => ⟨[], by simp [runEvents]⟩
  | cons e es ih =>
    intro a
    obtain ⟨l1, h1⟩ := applyEvent_completed a e
    obtain ⟨l2, h2⟩ := ih (applyEvent a e)
    refine ⟨l1 ++ l2, ?_⟩
    have hr : runEvents a (e :: es) = runEvents (applyEvent a e) es := by
      simp [runEvents]
    rw [hr, h2, h1, List.append_assoc]

theorem append_singleton_perm (x y : List Nat) (n : Nat) :
    ((x ++ [n]) ++ y).Perm ((x ++ y) ++ [n]) := by
  have h1 : (x ++ [n]) ++ y = x ++ (n :: y) := by simp
  have h2 : (x ++ y) ++ [n] = x ++ (y ++ [n]) := by
    simp [List.append_assoc]
  rw [h1, h2]
  exact List.Perm.append_left x (List.perm_append_singleton n y).symm

theorem appendSample_event_id (t : Int) (st : Nat) (r : Record) :
    (appendSample t st r).event_id = r.event_id := rfl

theorem branch_ids_perm (a : CoreStateAnalyzer) (ip : Nat)
    (p act ind : Bool) (now : Int) (ic : Nat) :
    (analyzerIds (record_branch_event a ip p act ind now ic)).Perm
      (analyzerIds a ++ [a.next_event_id]) := by
  simp only [analyzerIds, record_branch_event, List.map_append,
    List.map_cons, List.map_nil]
  exact append_singleton_perm _ _ _

theorem tick_ids_perm (a : CoreStateAnalyzer) (t d : Int) (st : Nat) :
    (analyzerIds (collect_state_sample a t d st)).Perm (analyzerIds a) := by
  by_cases h : d = 0
  · rw [h, collect_zero]
  · have h1 : analyzerIds (collect_state_sample a t d st) =
        ((a.active_records.map (appendSample t st)).filter
            (fun r => !decide (a.observation_window * Time.US <
                t - r.start_time))).map (fun r => r.event_id) ++
          (a.completed_records.map (fun r => r.event_id) ++
            ((a.active_records.map (appendSample t st)).filter
                (fun r => decide (a.observation_window * Time.US <
                    t - r.start_time))).map (fun r => r.event_id)) := by
      unfold analyzerIds
      rw [collect_active_eq a t d st h, collect_completed_eq a t d st h,
        List.map_append]
    rw [h1]
    refine (List.Perm.append_left _ List.perm_append_comm).trans ?_
    rw [← List.append_assoc, ← List.map_append]
    have h5 : (((a.active_records.map (appendSample t st)).filter
          (fun r => !decide (a.observation_window * Time.US <
              t - r.start_time))) ++
        ((a.active_records.map (appendSample t st)).filter
          (fun r => decide (a.observation_window * Time.US <
              t - r.start_time)))).Perm
        (a.active_records.map (appendSample t st)) :=
      List.perm_append_comm.trans (List.filter_append_perm _ _)
    refine ((h5.map (fun r => r.event_id)).append_right _).trans ?_
    rw [List.map_map]
    exact List.Perm.refl _

theorem runEvents_ids_perm (es : List CoreEvent) :
    ∀ a : CoreStateAnalyzer, 1 ≤ a.next_event_id →
    (analyzerIds a).Perm (List.range' 1 (a.next_event_id - 1)) →
    (analyzerIds (runEvents a es)).Perm
      (List.range' 1 ((runEvents a es).next_event_id - 1)) := by
  induction es with
  | nil => intro a _ h; simpa [runEvents] using h
  | cons e es ih =>
    intro a h1 h2
    have hr : runEvents a (e :: es) = runEvents (applyEvent a e) es := by
      simp [runEvents]
    rw [hr]
    have hnext := applyEvent_next a e
    refine ih (applyEvent a e) (by omega) ?_
    cases e with
    | tick t d st =>
      have hstep := tick_ids_perm a t d st
      show (analyzerIds (collect_state_sample a t d st)).Perm
        (List.range' 1 ((collect_state_sample a t d st).next_event_id - 1))
      rw [collect_next_eq]
      exact hstep.trans h2
    | branch ip p act ind now ic =>
      have hstep := branch_ids_perm a ip p act ind now ic
      show (analyzerIds (record_branch_event a ip p act ind now ic)).Perm
        (List.range' 1
          ((record_branch_event a ip p act ind now ic).next_event_id - 1))
      have hr2 : List.range' 1 (a.next_event_id + 1 - 1) =
          List.range' 1 (a.next_event_id - 1) ++ [a.next_event_id] := by
        have hc := @List.range'_concat 1 1 (a.next_event_id - 1)
        have he : a.next_event_id - 1 + 1 = a.next_event_id := by omega
        have he2 : 1 + 1 * (a.next_event_id - 1) = a.next_event_id := by
          omega
        rw [he, he2] at hc
        simpa using hc
      have hn : (record_branch_event a ip p act ind now ic).next_event_id =
          a.next_event_id + 1 := rfl
      rw [hn, hr2]
      exact hstep.trans (h2.append_right [a.next_event_id])

/-- A fresh tracker satisfies the id invariant. -/
theorem fresh_ids_perm (core_id : Nat) (rf : String) (w sp : Int) :
    (analyzerIds (freshAnalyzer core_id rf w sp)).Perm
      (List.range' 1 ((freshAnalyzer core_id rf w sp).next_event_id - 1)) := by
  simp [analyzerIds, freshAnalyzer]

/-- C4: lifecycle of records on one core, over an arbitrary event sequence
`es` followed by an arbitrary continuation `es2`.  The ids present in the
tracker (active then completed) are a permutation of the created ids
`1..N` — so after creation a record is in exactly one of the two sets
(never dropped, and never in both, since the id list is duplicate-free) —
and once a record is completed it survives verbatim (closing sample
included, never re-sampled) into every later state, while its event id
never reappears in the active set. -/
theorem C4_record_lifecycle (core_id : Nat) (rf : String) (w sp : Int)
    (es es2 : List CoreEvent) :
    (analyzerIds (runEvents (freshAnalyzer core_id rf w sp) es)).Perm
      (List.range' 1 (branchCount es))
    ∧ (analyzerIds (runEvents (freshAnalyzer core_id rf w sp) es)).Nodup
    ∧ ∀ r ∈ (runEvents (freshAnalyzer core_id rf w sp) es).completed_records,
        r ∈ (runEvents (freshAnalyzer core_id rf w sp)
              (es ++ es2)).completed_records
        ∧ ∀ s ∈ (runEvents (freshAnalyzer core_id rf w sp)
              (es ++ es2)).active_records,
            s.event_id ≠ r.event_id := by
  have hbase : (1 : Nat) ≤ (freshAnalyzer core_id rf w sp).next_event_id :=
    le_refl 1
  have hperm0 := runEvents_ids_perm es (freshAnalyzer core_id rf w sp) hbase
    (fresh_ids_perm core_id rf w sp)
  have hn : (runEvents (freshAnalyzer core_id rf w sp) es).next_event_id - 1 =
      branchCount es := by
    rw [runEvents_next]
    simp [freshAnalyzer]
  rw [hn] at hperm0
  have hperm2 := runEvents_ids_perm (es ++ es2)
    (freshAnalyzer core_id rf w sp) hbase (fresh_ids_perm core_id rf w sp)
  have hnodup2 :
      (analyzerIds (runEvents (freshAnalyzer core_id rf w sp)
        (es ++ es2))).Nodup :=
    hperm2.symm.nodup (List.nodup_range' _ _)
  have hdisj := (List.nodup_append.mp hnodup2).2.2
  refine ⟨hperm0, hperm0.symm.nodup (List.nodup_range' _ _), ?_⟩
  intro r hr
  obtain ⟨l, hl⟩ := runEvents_completed es2
    (runEvents (freshAnalyzer core_id rf w sp) es)
  have hmem : r ∈ (runEvents (freshAnalyzer core_id rf w sp)
      (es ++ es2)).completed_records := by
    rw [runEvents_append, hl]
    exact List.mem_append_left l hr
  refine ⟨hmem, ?_⟩
  intro s hs heq
  exact hdisj (List.mem_map_of_mem (fun r => r.event_id) hs)
    (heq ▸ List.mem_map_of_mem (fun r => r.event_id) hmem)

theorem C4_record_lifecycle_witness :
    c4r ∈ (runEvents (freshAnalyzer 0 "r" 1 1)
        (c4es ++ c4es2)).completed_records
    ∧ c4s.event_id ≠ c4r.event_id := by
  have h := (C4_record_lifecycle 0 "r" 1 1 c4es c4es2).2.2 c4r (by decide)
  exact ⟨h.1, h.2 c4s (by decide)⟩

/-- C7: `hook_branch_predictor` always increments the global branch
counter; on an unknown `core_id` (no tracker at that index) it changes no
tracker and creates no record — the total record count over all trackers is
unchanged (and the embedding is total, so no exception arises); on a known
`core_id` it forwards the event to exactly that tracker's
`record_branch_event` and leaves every other tracker unchanged. -/
theorem C7_branch_event_routing (g : CoreStateAtBranchEventAnalyzer)
    (core_id ip : Nat) (predicted actual indirect : Bool) (now : Int)
    (icount : Nat) :
    (hook_branch_predictor g core_id ip predicted actual indirect now
        icount).total_branches = g.total_branches + 1
    ∧ (g.core_analyzers[core_id]? = none →
        (hook_branch_predictor g core_id ip predicted actual indirect now
            icount).core_analyzers = g.core_analyzers
        ∧ totalRecordCount (hook_branch_predictor g core_id ip predicted
            actual indirect now icount) = totalRecordCount g)
    ∧ ∀ a, g.core_analyzers[core_id]? = some a →
        (hook_branch_predictor g core_id ip predicted actual indirect now
            icount).core_analyzers[core_id]? =
          some (record_branch_event a ip predicted actual indirect now
            icount)
        ∧ ∀ j, j ≠ core_id →
          (hook_branch_predictor g core_id ip predicted actual indirect now
              icount).core_analyzers[j]? = g.core_analyzers[j]? := by
  cases h : g.core_analyzers[core_id]? with
  | none =>
    refine ⟨?_, ?_, ?_⟩
    · simp [hook_branch_predictor, h]
    · intro _
      constructor <;> simp [hook_branch_predictor, h, totalRecordCount]
    · intro a ha
      exact absurd ha (by simp)
  | some a0 =>
    have hlen : core_id < g.core_analyzers.length := by
      by_contra hc
      push_neg at hc
      rw [List.getElem?_eq_none hc] at h
      exact absurd h (by simp)
    refine ⟨?_, ?_, ?_⟩
    · simp [hook_branch_predictor, h]
    · intro hn
      exact absurd hn (by simp)
    · intro a ha
      injection ha with ha
      subst ha
      constructor
      · simp [hook_branch_predictor, h, List.get?_eq_getElem?,
          List.getElem?_set_self', hlen]
      · intro j hj
        simp [hook_branch_predictor, h, List.getElem?_set_ne (Ne.symm hj)]

theorem C7_branch_event_routing_witness :
    (hook_branch_predictor exAggregator 7 11 true true false 0
        0).total_branches = exAggregator.total_branches + 1
    ∧ (hook_branch_predictor exAggregator 7 11 true true false 0
        0).core_analyzers = exAggregator.core_analyzers
    ∧ totalRecordCount (hook_branch_predictor exAggregator 7 11 true true
        false 0 0) = totalRecordCount exAggregator
    ∧ (hook_branch_predictor exAggregator 0 11 true true false 0
        0).core_analyzers[0]? =
      some (record_branch_event (freshAnalyzer 0 "r" 100 1) 11 true true
        false 0 0) := by
  have h1 := C7_branch_event_routing exAggregator 7 11 true true false 0 0
  have h2 := C7_branch_event_routing exAggregator 0 11 true true false 0 0
  have hu := h1.2.1 (by decide)
  exact ⟨h1.1, hu.1, hu.2,
    (h2.2.2 (freshAnalyzer 0 "r" 100 1) (by decide)).1⟩

/-- C9: `hook_sim_end` only reads the trackers — the embedding returns the
aggregator state unchanged, exactly as the Python method mutates nothing —
so running finalization twice with no intervening events yields identical
raw-record and summary datasets. -/
theorem C9_finalize_idempotent (g : CoreStateAtBranchEventAnalyzer) :
    (hook_sim_end g).1 = g
    ∧ (hook_sim_end ((hook_sim_end g).1)).2 = (hook_sim_end g).2 :=
  ⟨rfl, rfl⟩

/-- C8 counterexample: `setup` performs no positivity validation.  The
argument string `"0:1"` (observation window 0) and `"-5:-7"` (negative
window and period) are parsed without error, and the non-positive window is
installed into the created tracker — refuting the claim that setup treats
non-positive `observation_window`/`sampling_period` as a fatal
configuration error and never accepts them into a running tracker. -/
theorem C8_no_validation_counterexample :
    (setup "0:1" 1 "out").map (fun g => g.observation_window) = some 0
    ∧ (setup "0:1" 1 "out").map
        (fun g => g.core_analyzers.map (fun a => a.observation_window)) =
      some [0]
    ∧ (setup "-5:-7" 1 "out").map
        (fun g => (g.observation_window, g.sampling_period)) =
      some (-5, -7) :=
  ⟨by decide, by decide, by decide⟩

/-- C8 amended: `setup` applies no positivity validation — non-positive
`observation_window` and `sampling_period` values parse successfully and
are installed into the trackers — and, as the spec itself notes, a
non-positive window then makes every active record close on the first
nonzero-delta tick that lies strictly after its start time. -/
theorem C8_amended_no_validation (a : CoreStateAnalyzer)
    (time time_delta : Int) (st : Nat) (hw : a.observation_window ≤ 0)
    (hd : time_delta ≠ 0)
    (ht : ∀ r ∈ a.active_records, r.start_time < time) :
    (collect_state_sample a time time_delta st).active_records = []
    ∧ (setup "0:1" 1 "out").map
        (fun g => g.core_analyzers.map (fun x => x.observation_window)) =
      some [0] := by
  constructor
  · rw [collect_active_eq a time time_delta st hd]
    rw [List.filter_eq_nil_iff]
    intro r hr
    obtain ⟨r0, hr0, rfl⟩ := List.mem_map.mp hr
    have h1 : (0 : Int) < time - r0.start_time := by
      have := ht r0 hr0
      omega
    have h2 : a.observation_window * Time.US ≤ 0 := by
      have hus : (0 : Int) ≤ Time.US := by decide
      calc a.observation_window * Time.US ≤ 0 * Time.US :=
            mul_le_mul_of_nonneg_right hw hus
        _ = 0 := zero_mul _
    simp [appendSample]
    linarith
  · decide

theorem C8_amended_no_validation_witness :
    (collect_state_sample c8Analyzer 5 1 0).active_records = [] :=
  (C8_amended_no_validation c8Analyzer 5 1 0 (by decide) (by decide)
    (by decide)).1

theorem lookupStat_cons (k0 : Nat) (st0 : PatternStat)
    (ps : List (Nat × PatternStat)) (ip : Nat) :
    lookupStat ((k0, st0) :: ps) ip =
      if k0 = ip then some st0 else lookupStat ps ip := by
  by_cases hk : k0 = ip
  · simp [lookupStat, List.find?_cons_of_pos, hk]
  · rw [lookupStat, List.find?_cons_of_neg]
    · simp [lookupStat, hk]
    · simp [hk]

theorem updateStats_cons (k0 : Nat) (st0 : PatternStat)
    (ps : List (Nat × PatternStat)) (ip : Nat) (ipos : List Nat) (bt : Bool) :
    updateStats ((k0, st0) :: ps) ip ipos bt =
      if k0 = ip then
        (k0, ⟨st0.count + 1, st0.idle_positions ++ ipos,
              st0.branch_taken_count + (if bt then 1 else 0)⟩) :: ps
      else (k0, st0) :: updateStats ps ip ipos bt := rfl

theorem lookup_update_none (ps : List (Nat × PatternStat)) (ip : Nat)
    (ipos : List Nat) (bt : Bool) (h : lookupStat ps ip = none) :
    lookupStat (updateStats ps ip ipos bt) ip =
      some ⟨1, ipos, if bt then 1 else 0⟩ := by
  induction ps with
  | nil => simp [updateStats, lookupStat_cons, lookupStat]
  | cons q ps ih =>
    obtain ⟨k0, st0⟩ := q
    by_cases hk : k0 = ip
    · rw [lookupStat_cons, if_pos hk] at h
      exact absurd h (by simp)
    · rw [lookupStat_cons, if_neg hk] at h
      rw [updateStats_cons, if_neg hk, lookupStat_cons, if_neg hk]
      exact ih h

theorem lookup_update_some (ps : List (Nat × PatternStat)) (ip : Nat)
    (ipos : List Nat) (bt : Bool) (st : PatternStat)
    (h : lookupStat ps ip = some st) :
    lookupStat (updateStats ps ip ipos bt) ip =
      some ⟨st.count + 1, st.idle_positions ++ ipos,
            st.branch_taken_count + (if bt then 1 else 0)⟩ := by
  induction ps with
  | nil => exact absurd h (by simp [lookupStat])
  | cons q ps ih =>
    obtain ⟨k0, st0⟩ := q
    by_cases hk : k0 = ip
    · rw [lookupStat_cons, if_pos hk] at h
      injection h with h
      subst h
      rw [updateStats_cons, if_pos hk, lookupStat_cons, if_pos hk]
    · rw [lookupStat_cons, if_neg hk] at h
      rw [updateStats_cons, if_neg hk, lookupStat_cons, if_neg hk]
      exact ih h

theorem lookup_update_other (ps : List (Nat × PatternStat)) (ip : Nat)
    (ipos : List Nat) (bt : Bool) (k : Nat) (h : k ≠ ip) :
    lookupStat (updateStats ps ip ipos bt) k = lookupStat ps k := by
  induction ps with
  | nil => simp [updateStats, lookupStat_cons, lookupStat, Ne.symm h]
  | cons q ps ih =>
    obtain ⟨k0, st0⟩ := q
    by_cases hk : k0 = ip
    · rw [updateStats_cons, if_pos hk, lookupStat_cons, lookupStat_cons]
      have hk2 : ¬(k0 = k) := by omega
      rw [if_neg hk2, if_neg hk2]
    · rw [updateStats_cons, if_neg hk, lookupStat_cons, lookupStat_cons]
      by_cases hk3 : k0 = k
      · rw [if_pos hk3, if_pos hk3]
      · rw [if_neg hk3, if_neg hk3]
        exact ih

theorem statsStep_skip (ps : List (Nat × PatternStat)) (r : Record)
    (he : (idlePositionsOf r).isEmpty = true) : statsStep ps r = ps := by
  simp [statsStep, he]

theorem statsStep_update (ps : List (Nat × PatternStat)) (r : Record)
    (he : (idlePositionsOf r).isEmpty = false) :
    statsStep ps r = updateStats ps r.ip (idlePositionsOf r)
      r.branch_taken := by
  simp [statsStep, he]

theorem recordMatches_empty (ip : Nat) (r : Record)
    (he : (idlePositionsOf r).isEmpty = true) :
    recordMatches ip r = false := by
  simp [recordMatches, he]

theorem recordMatches_other (ip : Nat) (r : Record) (hip : r.ip ≠ ip) :
    recordMatches ip r = false := by
  simp [recordMatches, hip]

theorem recordMatches_hit (ip : Nat) (r : Record)
    (he : (idlePositionsOf r).isEmpty = false) (hip : r.ip = ip) :
    recordMatches ip r = true := by
  simp [recordMatches, he, hip]

theorem foldl_lookup_some (rs : List Record) :
    ∀ (ps : List (Nat × PatternStat)) (ip : Nat) (st : PatternStat),
    lookupStat ps ip = some st →
    lookupStat (rs.foldl statsStep ps) ip =
      some ⟨st.count + (matchingRecords rs ip).length,
            st.idle_positions ++
              (matchingRecords rs ip).flatMap idlePositionsOf,
            st.branch_taken_count +
              ((matchingRecords rs ip).filter
                (fun r => r.branch_taken)).length⟩ := by
  induction rs with
  | nil =>
    intro ps ip st h
    simpa [matchingRecords] using h
  | cons r rs ih =>
    intro ps ip st h
    rw [List.foldl_cons]
    by_cases he : (idlePositionsOf r).isEmpty
    · have hmr : matchingRecords (r :: rs) ip = matchingRecords rs ip := by
        simp [matchingRecords, List.filter_cons, recordMatches_empty ip r he]
      rw [statsStep_skip ps r he, hmr]
      exact ih ps ip st h
    · have hef : (idlePositionsOf r).isEmpty = false := by
        simpa using he
      by_cases hip : r.ip = ip
      · have hmr : matchingRecords (r :: rs) ip =
            r :: matchingRecords rs ip := by
          simp [matchingRecords, List.filter_cons,
            recordMatches_hit ip r hef hip]
        rw [statsStep_update ps r hef, hip, hmr]
        have hl := lookup_update_some ps ip (idlePositionsOf r)
          r.branch_taken st h
        rw [ih (updateStats ps ip (idlePositionsOf r) r.branch_taken) ip _
          hl]
        cases hb : r.branch_taken <;>
          simp [List.filter_cons, hb, List.flatMap_cons,
            List.append_assoc] <;>
          omega
      · have hmr : matchingRecords (r :: rs) ip = matchingRecords rs ip := by
          simp [matchingRecords, List.filter_cons,
            recordMatches_other ip r hip]
        rw [statsStep_update ps r hef, hmr]
        refine ih _ ip st ?_
        rw [lookup_update_other ps r.ip (idlePositionsOf r) r.branch_taken
          ip (fun hne => hip hne.symm)]
        exact h

theorem foldl_lookup_none (rs : List Record) :
    ∀ (ps : List (Nat × PatternStat)) (ip : Nat),
    lookupStat ps ip = none →
    lookupStat (rs.foldl statsStep ps) ip =
      if (matchingRecords rs ip).isEmpty then none
      else
        some ⟨(matchingRecords rs ip).length,
              (matchingRecords rs ip).flatMap idlePositionsOf,
              ((matchingRecords rs ip).filter
                (fun r => r.branch_taken)).length⟩ := by
  induction rs with
  | nil =>
    intro ps ip h
    simpa [matchingRecords] using h
  | cons r rs ih =>
    intro ps ip h
    rw [List.foldl_cons]
    by_cases he : (idlePositionsOf r).isEmpty
    · have hmr : matchingRecords (r :: rs) ip = matchingRecords rs ip := by
        simp [matchingRecords, List.filter_cons, recordMatches_empty ip r he]
      rw [statsStep_skip ps r he, hmr]
      exact ih ps ip h
    · have hef : (idlePositionsOf r).isEmpty = false := by
        simpa using he
      by_cases hip : r.ip = ip
      · have hmr : matchingRecords (r :: rs) ip =
            r :: matchingRecords rs ip := by
          simp [matchingRecords, List.filter_cons,
            recordMatches_hit ip r hef hip]
        rw [statsStep_update ps r hef, hip, hmr]
        have hl := lookup_update_none ps ip (idlePositionsOf r)
          r.branch_taken h
        rw [foldl_lookup_some rs
          (updateStats ps ip (idlePositionsOf r) r.branch_taken) ip _ hl]
        cases hb : r.branch_taken <;>
          simp [List.filter_cons, hb, List.flatMap_cons,
            List.append_assoc] <;>
          omega
      · have hmr : matchingRecords (r :: rs) ip = matchingRecords rs ip := by
          simp [matchingRecords, List.filter_cons,
            recordMatches_other ip r hip]
        rw [statsStep_update ps r hef, hmr]
        refine ih _ ip ?_
        rw [lookup_update_other ps r.ip (idlePositionsOf r) r.branch_taken
          ip (fun hne => hip hne.symm)]
        exact h

theorem patternStats_lookup (rs : List Record) (ip : Nat) :
    lookupStat (patternStats rs) ip =
      if (matchingRecords rs ip).isEmpty then none
      else
        some ⟨(matchingRecords rs ip).length,
              (matchingRecords rs ip).flatMap idlePositionsOf,
              ((matchingRecords rs ip).filter
                (fun r => r.branch_taken)).length⟩ :=
  foldl_lookup_none rs [] ip rfl

theorem keysOf_update (ps : List (Nat × PatternStat)) (ip : Nat)
    (ipos : List Nat) (bt : Bool) :
    keysOf (updateStats ps ip ipos bt) =
      if (lookupStat ps ip).isSome then keysOf ps
      else keysOf ps ++ [ip] := by
  induction ps with
  | nil => simp [updateStats, keysOf, lookupStat]
  | cons q ps ih =>
    obtain ⟨k0, st0⟩ := q
    by_cases hk : k0 = ip
    · rw [updateStats_cons, if_pos hk, lookupStat_cons, if_pos hk]
      simp [keysOf]
    · rw [updateStats_cons, if_neg hk, lookupStat_cons, if_neg hk]
      simp only [keysOf, List.map_cons] at ih ⊢
      rw [ih]
      by_cases hs : (lookupStat ps ip).isSome
      · rw [if_pos hs, if_pos hs]
      · rw [if_neg hs, if_neg hs, List.cons_append]

theorem lookup_none_not_mem (ps : List (Nat × PatternStat)) (ip : Nat)
    (h : lookupStat ps ip = none) : ip ∉ keysOf ps := by
  intro hm
  obtain ⟨p, hp, hpk⟩ := List.mem_map.mp hm
  cases hf : List.find? (fun p => p.1 == ip) ps with
  | some q =>
    rw [lookupStat, hf] at h
    exact absurd h (by simp)
  | none =>
    have := List.find?_eq_none.mp hf p hp
    rw [hpk] at this
    exact this (by simp)

theorem keys_nodup_update (ps : List (Nat × PatternStat)) (ip : Nat)
    (ipos : List Nat) (bt : Bool) (hnd : (keysOf ps).Nodup) :
    (keysOf (updateStats ps ip ipos bt)).Nodup := by
  rw [keysOf_update]
  by_cases hs : (lookupStat ps ip).isSome
  · rw [if_pos hs]
    exact hnd
  · rw [if_neg hs]
    have hn : lookupStat ps ip = none :=
      Option.not_isSome_iff_eq_none.mp hs
    rw [List.nodup_append]
    refine ⟨hnd, List.nodup_singleton ip, ?_⟩
    intro x hx hx2
    have hxip : x = ip := by simpa using hx2
    exact lookup_none_not_mem ps ip hn (hxip ▸ hx)

theorem patternStats_keys_nodup (rs : List Record) :
    (keysOf (patternStats rs)).Nodup := by
  suffices h : ∀ ps, (keysOf ps).Nodup →
      (keysOf (rs.foldl statsStep ps)).Nodup by
    exact h [] (by simp [keysOf])
  induction rs with
  | nil => intro ps h; simpa using h
  | cons r rs ih =>
    intro ps h
    rw [List.foldl_cons]
    apply ih
    by_cases he : (idlePositionsOf r).isEmpty
    · rw [statsStep_skip ps r he]
      exact h
    · rw [statsStep_update ps r (by simpa using he)]
      exact keys_nodup_update ps r.ip (idlePositionsOf r) r.branch_taken h

theorem mem_lookup_of_nodup (ps : List (Nat × PatternStat))
    (p : Nat × PatternStat) (hnd : (keysOf ps).Nodup) (hm : p ∈ ps) :
    lookupStat ps p.1 = some p.2 := by
  induction ps with
  | nil => cases hm
  | cons q ps ih =>
    obtain ⟨k0, st0⟩ := q
    cases hm with
    | head => simp [lookupStat_cons]
    | tail _ hm2 =>
      have hnd2 : (keysOf ps).Nodup := by
        simpa [keysOf] using (List.nodup_cons.mp (by simpa [keysOf]
          using hnd)).2
      have hk : k0 ≠ p.1 := by
        intro he
        have hmem : p.1 ∈ keysOf ps :=
          List.mem_map.mpr ⟨p, hm2, rfl⟩
        have hnot : k0 ∉ keysOf ps := (List.nodup_cons.mp (by simpa [keysOf]
          using hnd)).1
        rw [he] at hnot
        exact hnot hmem
      rw [lookupStat_cons, if_neg hk]
      exact ih hnd2 hm2

theorem idle_isEmpty_iff (r : Record) :
    (idlePositionsOf r).isEmpty = true ↔
      ¬((5 : Nat) ∈ r.states.map Prod.snd) := by
  unfold idlePositionsOf
  rw [List.isEmpty_iff, List.map_eq_nil_iff, List.filter_eq_nil_iff]
  constructor
  · intro h hm
    rw [← List.enum_map_snd (r.states.map Prod.snd)] at hm
    obtain ⟨p, hp, hps⟩ := List.mem_map.mp hm
    exact h p hp (by simp [hps])
  · intro h p hp hq
    apply h
    rw [← List.enum_map_snd (r.states.map Prod.snd)]
    exact List.mem_map.mpr ⟨p, hp, by simpa using hq⟩

theorem recordMatches_iff (ip : Nat) (r : Record) :
    recordMatches ip r = true ↔
      (r.ip = ip ∧ (5 : Nat) ∈ r.states.map Prod.snd) := by
  unfold recordMatches
  rw [Bool.and_eq_true, beq_iff_eq, Bool.not_eq_true']
  constructor
  · rintro ⟨h1, h2⟩
    refine ⟨h1, ?_⟩
    by_contra hc
    rw [(idle_isEmpty_iff r).mpr hc] at h2
    cases h2
  · rintro ⟨h1, h2⟩
    refine ⟨h1, ?_⟩
    by_contra hc
    rw [Bool.not_eq_false] at hc
    exact (idle_isEmpty_iff r).mp hc h2

/-- C2: characterization of the summary dataset.  A summary row with a given
`ip` exists iff some record with that ip has at least one IDLE (= 5)
sample; the `pattern_stats` entry of `ip` holds exactly the count of such
records, the concatenation of their 0-based IDLE sample indices, and the
number of them with `branch_taken`; and the emitted row satisfies
`avg_idle_position = mean(idle_positions)`,
`idle_time_percent = 100 * len(idle_positions) / (count *
observation_window)` (configured window length as denominator) and
`branch_taken_ratio = branch_taken_count / count`.  Records with zero IDLE
samples contribute nothing. -/
theorem C2_summary_statistics (rs : List Record) (w : Int) (ip : Nat) :
    ((∃ row ∈ generate_analysis_summary w rs, row.ip = ip) ↔
      ∃ r ∈ rs, r.ip = ip ∧ (5 : Nat) ∈ r.states.map Prod.snd)
    ∧ (∀ st, lookupStat (patternStats rs) ip = some st →
        st.count = (matchingRecords rs ip).length
        ∧ st.idle_positions =
            (matchingRecords rs ip).flatMap idlePositionsOf
        ∧ st.branch_taken_count =
            ((matchingRecords rs ip).filter
              (fun r => r.branch_taken)).length)
    ∧ (∀ row ∈ generate_analysis_summary w rs, row.ip = ip →
        row.count = (matchingRecords rs ip).length
        ∧ row.avg_idle_position =
            ((((matchingRecords rs ip).flatMap idlePositionsOf).map
              (fun i : Nat => (i : ℚ))).sum) /
            ((((matchingRecords rs ip).flatMap idlePositionsOf).length : ℚ))
        ∧ row.idle_time_percent =
            100 * ((((matchingRecords rs ip).flatMap
                idlePositionsOf).length : ℚ)) /
              (((matchingRecords rs ip).length : ℚ) * (w : ℚ))
        ∧ row.branch_taken_ratio =
            (((matchingRecords rs ip).filter
                (fun r => r.branch_taken)).length : ℚ) /
              ((matchingRecords rs ip).length : ℚ)) := by
  have hchar : ∀ st, lookupStat (patternStats rs) ip = some st →
      st.count = (matchingRecords rs ip).length
      ∧ st.idle_positions = (matchingRecords rs ip).flatMap idlePositionsOf
      ∧ st.branch_taken_count =
          ((matchingRecords rs ip).filter
            (fun r => r.branch_taken)).length := by
    intro st hst
    rw [patternStats_lookup] at hst
    by_cases hm : (matchingRecords rs ip).isEmpty
    · rw [if_pos hm] at hst
      cases hst
    · rw [if_neg hm] at hst
      injection hst with hst
      rw [← hst]
      exact ⟨rfl, rfl, rfl⟩
  refine ⟨?_, hchar, ?_⟩
  · constructor
    · rintro ⟨row, hrow, hip⟩
      obtain ⟨p, hp, hpr⟩ := List.mem_map.mp hrow
      have hlook := mem_lookup_of_nodup (patternStats rs) p
        (patternStats_keys_nodup rs) hp
      rw [patternStats_lookup] at hlook
      by_cases hm : (matchingRecords rs ip).isEmpty
      · exfalso
        have hp1 : p.1 = ip := by
          rw [← hip, ← hpr]
          rfl
        rw [hp1, if_pos hm] at hlook
        cases hlook
      · have : ∃ r ∈ rs, recordMatches ip r = true := by
          by_contra hc
          push_neg at hc
          have : matchingRecords rs ip = [] :=
            List.filter_eq_nil_iff.mpr (by
              intro r hr
              simpa using hc r hr)
          rw [this] at hm
          exact hm rfl
        obtain ⟨r, hr, hrm⟩ := this
        exact ⟨r, hr, (recordMatches_iff ip r).mp hrm⟩
    · rintro ⟨r, hr, hri, hrs⟩
      have hmm : r ∈ matchingRecords rs ip :=
        List.mem_filter.mpr ⟨hr, (recordMatches_iff ip r).mpr ⟨hri, hrs⟩⟩
      have hne : (matchingRecords rs ip).isEmpty = false := by
        cases hmr : matchingRecords rs ip with
        | nil => rw [hmr] at hmm; cases hmm
        | cons x xs => simp
      have hlook := patternStats_lookup rs ip
      rw [if_neg (by simp [hne])] at hlook
      have hfind : (List.find? (fun p => p.1 == ip)
          (patternStats rs)).isSome := by
        cases hf : List.find? (fun p => p.1 == ip) (patternStats rs) with
        | some q => simp
        | none =>
          rw [lookupStat, hf] at hlook
          cases hlook
      obtain ⟨q, hq⟩ := Option.isSome_iff_exists.mp hfind
      have hqmem := List.mem_of_find?_eq_some hq
      have hqip : q.1 = ip := by
        have := List.find?_some hq
        simpa using this
      refine ⟨summaryRow w q, List.mem_map_of_mem (summaryRow w) hqmem, ?_⟩
      simpa [summaryRow] using hqip
  · rintro row hrow hip
    obtain ⟨p, hp, hpr⟩ := List.mem_map.mp hrow
    have hp1 : p.1 = ip := by
      rw [← hip, ← hpr]
      rfl
    have hlook := mem_lookup_of_nodup (patternStats rs) p
      (patternStats_keys_nodup rs) hp
    rw [hp1] at hlook
    obtain ⟨hc, hi, hb⟩ := hchar p.2 hlook
    subst hpr
    refine ⟨by simpa [summaryRow] using hc, ?_, ?_, ?_⟩
    · simp only [summaryRow, hi]
    · simp only [summaryRow, hi, hc]
      ring
    · simp only [summaryRow, hb, hc]

theorem C2_summary_statistics_witness :
    (⟨1, [0], 1⟩ : PatternStat).count =
      (matchingRecords [statRecord] 4660).length
    ∧ (⟨1, [0], 1⟩ : PatternStat).idle_positions =
        (matchingRecords [statRecord] 4660).flatMap idlePositionsOf
    ∧ (⟨1, [0], 1⟩ : PatternStat).branch_taken_count =
        ((matchingRecords [statRecord] 4660).filter
          (fun r => r.branch_taken)).length := by
  have h := C2_summary_statistics [statRecord] 100 4660
  exact h.2.1 ⟨1, [0], 1⟩ (by decide)

theorem mem_updateStats_pos (ip : Nat) (ipos : List Nat) (bt : Bool) :
    ∀ (ps : List (Nat × PatternStat)) (p : Nat × PatternStat),
    (∀ q ∈ ps, q.2.idle_positions ≠ [] ∧ 0 < q.2.count) →
    ipos ≠ [] →
    p ∈ updateStats ps ip ipos bt →
    p.2.idle_positions ≠ [] ∧ 0 < p.2.count := by
  intro ps
  induction ps with
  | nil =>
    intro p h hi hm
    simp only [updateStats, List.mem_singleton] at hm
    rw [hm]
    exact ⟨hi, Nat.one_pos⟩
  | cons q ps ih =>
    obtain ⟨k0, st0⟩ := q
    intro p h hi hm
    by_cases hk : k0 = ip
    · rw [updateStats_cons, if_pos hk] at hm
      cases hm with
      | head =>
        exact ⟨List.append_ne_nil_of_right_ne_nil _ hi, Nat.succ_pos _⟩
      | tail _ hm2 => exact h p (List.mem_cons_of_mem _ hm2)
    · rw [updateStats_cons, if_neg hk] at hm
      cases hm with
      | head => exact h _ (List.mem_cons_self _ _)
      | tail _ hm2 =>
        exact ih p (fun q hq => h q (List.mem_cons_of_mem _ hq)) hi hm2

theorem patternStats_entries_pos (rs : List Record) :
    ∀ p ∈ patternStats rs, p.2.idle_positions ≠ [] ∧ 0 < p.2.count := by
  suffices h : ∀ ps, (∀ q ∈ ps, q.2.idle_positions ≠ [] ∧ 0 < q.2.count) →
      ∀ p ∈ rs.foldl statsStep ps,
        p.2.idle_positions ≠ [] ∧ 0 < p.2.count by
    exact h [] (by simp)
  induction rs with
  | nil => intro ps h p hp; exact h p (by simpa using hp)
  | cons r rs ih =>
    intro ps h p hp
    rw [List.foldl_cons] at hp
    by_cases he : (idlePositionsOf r).isEmpty
    · rw [statsStep_skip ps r he] at hp
      exact ih ps h p hp
    · rw [statsStep_update ps r (by simpa using he)] at hp
      refine ih _ ?_ p hp
      intro q hq
      refine mem_updateStats_pos r.ip (idlePositionsOf r) r.branch_taken
        ps q h ?_ hq
      intro hnil
      exact he (by simp [hnil])

/-- C10: under `observation_window ≠ 0` every division of the summary
computation is safe.  Every `pattern_stats` entry is created with a
non-empty `idle_positions` list and `count ≥ 1`, so the divisors
`len(idle_positions)`, `count * observation_window` and `count` are all
nonzero as rationals; and one scan step never decreases an entry's
`count`. -/
theorem C10_division_safety (rs : List Record) (w : Int) (hw : w ≠ 0) :
    (∀ p ∈ patternStats rs,
      p.2.idle_positions ≠ [] ∧ 0 < p.2.count
      ∧ (p.2.idle_positions.length : ℚ) ≠ 0
      ∧ ((p.2.count : ℚ) * (w : ℚ)) ≠ 0
      ∧ (p.2.count : ℚ) ≠ 0)
    ∧ ∀ (ps : List (Nat × PatternStat)) (r : Record) (ip2 : Nat)
        (st st2 : PatternStat),
        lookupStat ps ip2 = some st →
        lookupStat (statsStep ps r) ip2 = some st2 →
        st.count ≤ st2.count := by
  constructor
  · intro p hp
    obtain ⟨h1, h2⟩ := patternStats_entries_pos rs p hp
    have hl : p.2.idle_positions.length ≠ 0 := by
      intro h0
      exact h1 (List.eq_nil_of_length_eq_zero h0)
    refine ⟨h1, h2, Nat.cast_ne_zero.mpr hl, ?_, ?_⟩
    · exact mul_ne_zero (Nat.cast_ne_zero.mpr (by omega))
        (Int.cast_ne_zero.mpr hw)
    · exact Nat.cast_ne_zero.mpr (by omega)
  · intro ps r ip2 st st2 hs hs2
    by_cases he : (idlePositionsOf r).isEmpty
    · rw [statsStep_skip ps r he, hs] at hs2
      injection hs2 with hs2
      rw [hs2]
    · rw [statsStep_update ps r (by simpa using he)] at hs2
      by_cases hip : r.ip = ip2
      · rw [← hip] at hs hs2
        rw [lookup_update_some ps r.ip (idlePositionsOf r)
          r.branch_taken st hs] at hs2
        injection hs2 with hs2
        rw [← hs2]
        exact Nat.le_succ _
      · rw [lookup_update_other ps r.ip (idlePositionsOf r) r.branch_taken
          ip2 (fun hne => hip hne.symm), hs] at hs2
        injection hs2 with hs2
        rw [hs2]

theorem C10_division_safety_witness :
    c10p.2.idle_positions ≠ [] ∧ 0 < c10p.2.count
    ∧ (c10p.2.idle_positions.length : ℚ) ≠ 0
    ∧ ((c10p.2.count : ℚ) * ((100 : Int) : ℚ)) ≠ 0
    ∧ (c10p.2.count : ℚ) ≠ 0 :=
  (C10_division_safety [statRecord] 100 (by decide)).1 c10p (by decide)

theorem cast_sum_q (l : List Nat) :
    (l.map (fun i : Nat => (i : ℚ))).sum = (l.sum : ℚ) := by
  induction l with
  | nil => simp
  | cons a l ih =>
    rw [List.map_cons, List.sum_cons, ih, List.sum_cons]
    push_cast
    ring

set_option maxRecDepth 100000 in
/-- C5: the concrete scenario — window 100 µs, period 1 µs, one core, one
branch event at t = 0, then 150 IDLE ticks at the 1 µs cadence.  The
record collects exactly 101 samples (it closes on the tick with
elapsed = 101 µs > 100 µs), and its summary row reads
`Avg_Idle_Position = 50`, `Idle_Time_Percent = 101`, and
`Branch_Taken_Ratio` 1 (branch taken) or 0 (not taken). -/
theorem C5_concrete_scenario :
    (setup "100:1" 1 "results").isSome = true
    ∧ ((hook_sim_end (c5run true)).2.1.map (fun row => row.states.length))
        = [101]
    ∧ (hook_sim_end (c5run true)).2.2 =
        [{ ip := 4660, count := 1, avg_idle_position := 50,
           idle_time_percent := 101, branch_taken_ratio := 1 }]
    ∧ (hook_sim_end (c5run false)).2.2 =
        [{ ip := 4660, count := 1, avg_idle_position := 50,
           idle_time_percent := 101, branch_taken_ratio := 0 }] := by
  have htrue : patternStats (allRecords (c5run true)) =
      [(4660, ⟨1, List.range 101, 1⟩)] := by decide
  have hfalse : patternStats (allRecords (c5run false)) =
      [(4660, ⟨1, List.range 101, 0⟩)] := by decide
  have hwt : (c5run true).observation_window = 100 := by decide
  have hwf : (c5run false).observation_window = 100 := by decide
  have hsum : ((List.range 101).map (fun i : Nat => (i : ℚ))).sum = 5050 := by
    rw [cast_sum_q]
    norm_num [show (List.range 101).sum = 5050 from by decide]
  refine ⟨by decide, by decide, ?_, ?_⟩
  · show generate_analysis_summary (c5run true).observation_window
      (allRecords (c5run true)) = _
    rw [hwt, generate_analysis_summary, htrue]
    simp [summaryRow, hsum]
    norm_num
  · show generate_analysis_summary (c5run false).observation_window
      (allRecords (c5run false)) = _
    rw [hwf, generate_analysis_summary, hfalse]
    simp [summaryRow, hsum]
    norm_num

end AnalysisDataExport
